import Mathlib

/-!
# Verification of the `pergus/editor` terminal text editor

A shallow embedding of the editing engine of the `editor` Go package:
the line/document data model, tab expansion (`updateRow`), the
logical-to-display column map (`computeRx`), cursor movement, the
insert/delete operations, substring search (`searchPoints`), backward
bracket matching (`paren`), the quit confirmation flow, and the
escape-sequence key decoder (`readKey`).

Go `[]rune` slices and strings are modelled as `List Char`; the bracket
matcher's depth counter (a Go `int` that can go negative) is modelled as
`Int`; indices are `Nat`.  The editor's shared mutable `config` value is
modelled as an explicit state record `EState` threaded through the
operations.  Config fields no modelled operation reads (viewport offsets,
terminal geometry, file name, message timestamps, search state, signal
channel) are omitted from the record.

Where the Go code would panic on an out-of-range slice index, list reads
use `getD`/`getElem?` and list writes out of range are the identity; the
theorems are stated under the bounds hypotheses that hold at the actual
call sites, and the one operation whose claim is precisely about such an
out-of-range access (`kill_line`) is modelled with an explicit `Option`
so that the out-of-bounds access is observable.
-/

namespace Editor

/-- `editor.tabStop` is set to 4 in `initialize` and never changed. -/
def tabStop : Nat := 4

/-- A line of text: `chars` holds the logical characters, `render` the
characters actually drawn (tabs expanded). -/
structure Line where
  chars : List Char
  render : List Char
deriving Repr, DecidableEq

/-- An x/y position (`point` in the source). -/
structure Point where
  x : Nat
  y : Nat
deriving Repr, DecidableEq

/-- Key codes from the source. -/
def kBackSpace : Nat := 127

def kArrowUp : Nat := 1000

def kArrowDown : Nat := 1001

def kArrowLeft : Nat := 1002

def kArrowRight : Nat := 1003

def kPageUp : Nat := 1004

def kPageDown : Nat := 1005

def kHome : Nat := 1006

def kEnd : Nat := 1007

def kDelete : Nat := 1008

/-- `updateRow`: derive the render sequence from the logical characters by
replacing every tab with `tabStop` spaces (a fixed run, independent of the
current column). -/
def updateRow (src : List Char) : List Char :=
  src.foldl (fun dest r => if r = '\t' then dest ++ List.replicate tabStop ' ' else dest ++ [r]) []

/-- `computeRx` as in the current revision (part_000): walk the first `x`
characters; a tab executes `rx = rx + tabStop - 1` and then the shared
`rx++` (so a fixed advance of `tabStop` per tab); any other character adds
one.  The Go loop reads `row[i]` for `i < x`, so it is called with
`x ≤ len(row)`. -/
def computeRx (row : List Char) (x : Nat) : Nat :=
  (row.take x).foldl (fun rx c => if c = '\t' then rx + tabStop - 1 + 1 else rx + 1) 0

/-- `computeRx` as in the earlier revision of the package (part_003): a tab
executes `rx = (rx + tabStop - 1) - (rx % tabStop)` and then `rx++`, i.e.
it advances `rx` to the next strict multiple of `tabStop`. -/
def computeRx003 (row : List Char) (x : Nat) : Nat :=
  (row.take x).foldl (fun rx c => if c = '\t' then rx + tabStop - 1 - rx % tabStop + 1 else rx + 1) 0

/-- Modelled from the spec's words ("render equals chars with every tab
expanded to the next multiple of the tab width"): expand each tab into
however many spaces it takes to reach the next multiple of `tabStop`. -/
def specTabExpand (src : List Char) : List Char :=
  src.foldl (fun dest r =>
    if r = '\t' then dest ++ List.replicate (tabStop - dest.length % tabStop) ' '
    else dest ++ [r]) []

/-- Modelled from the spec's words for `displayColumn`: each tab advances
the running display column to the next (strict) multiple of the tab width;
every other character advances it by one. -/
def specDisplayColumn (row : List Char) (x : Nat) : Nat :=
  (row.take x).foldl (fun rx c => if c = '\t' then rx + (tabStop - rx % tabStop) else rx + 1) 0

/-- Fixed-advance display-column function: each tab advances the display
column by exactly `tabStop`; every other character by one. -/
def specDisplayColumnFixed (row : List Char) (x : Nat) : Nat :=
  (row.take x).foldl (fun rx c => if c = '\t' then rx + tabStop else rx + 1) 0

/-- The editor state (the fields of the shared `config` value that the
modelled operations read or write). -/
structure EState where
  cursor : Point
  lines : List Line
  dirty : Bool
  quitComfirm : Bool
  statusMsg : String
deriving Repr, DecidableEq

/-- Read line `y`; the Go code indexes `editor.lines[y]` directly (a panic
when out of range), so theorems carry the in-range hypotheses of the
actual call sites. -/
def lineAt (lines : List Line) (y : Nat) : Line :=
  lines.getD y ⟨[], []⟩

/-- `rowInsertChar`: insert `c` at index `col`, returning the row unchanged
when `col` is out of range (`col < 0 || col > len(row)`). -/
def rowInsertChar (row : List Char) (col : Nat) (c : Char) : List Char :=
  if col > row.length then row
  else row.take col ++ c :: row.drop col

/-- `rowDeleteChar`: delete the character at index `col`, returning the row
unchanged when `col` is out of range (`col < 0 || col >= len(row)`). -/
def rowDeleteChar (row : List Char) (col : Nat) : List Char :=
  if col ≥ row.length then row
  else row.take col ++ row.drop (col + 1)

/-- `insertRow`: insert a new line built from `str` at index `row`
(out-of-range is a no-op); the new line's render is derived by
`updateRow`; sets the dirty flag. -/
def insertRow (s : EState) (row : Nat) (str : List Char) : EState :=
  if row > s.lines.length then s
  else { s with lines := s.lines.take row ++ ⟨str, updateRow str⟩ :: s.lines.drop row,
                dirty := true }

/-- `deleteRow`: remove line `row` (out-of-range is a no-op); sets the
dirty flag. -/
def deleteRow (s : EState) (row : Nat) : EState :=
  if row ≥ s.lines.length then s
  else { s with lines := s.lines.take row ++ s.lines.drop (row + 1), dirty := true }

/-- `insertChar`: if the cursor sits on the virtual trailing line, first
append an empty line; then insert at the cursor column, re-derive the
line's render, advance the cursor column, and set the dirty flag. -/
def insertChar (c : Char) (s : EState) : EState :=
  let s := if s.cursor.y = s.lines.length then insertRow s s.lines.length [] else s
  let chars := rowInsertChar (lineAt s.lines s.cursor.y).chars s.cursor.x c
  { s with lines := s.lines.set s.cursor.y ⟨chars, updateRow chars⟩,
           cursor := ⟨s.cursor.x + 1, s.cursor.y⟩,
           dirty := true }

/-- `insertNewLine`: at column 0 insert an empty line above; otherwise
split the current line at the cursor column, re-deriving the truncated
line's render and inserting the tail below; the cursor moves to column 0
of the following line. -/
def insertNewLine (s : EState) : EState :=
  let s :=
    if s.cursor.x = 0 then insertRow s s.cursor.y []
    else
      let l := lineAt s.lines s.cursor.y
      let moveChars := l.chars.drop s.cursor.x
      let headChars := l.chars.take s.cursor.x
      let s := { s with lines := s.lines.set s.cursor.y ⟨headChars, updateRow headChars⟩ }
      insertRow s (s.cursor.y + 1) moveChars
  { s with cursor := ⟨0, s.cursor.y + 1⟩ }

/-- `deleteChar`: no-op on the virtual trailing line or at the document
start; at column > 0 delete the preceding character in place; at column 0
merge the current line into the previous one (line join). -/
def deleteChar (s : EState) : EState :=
  if s.cursor.y = s.lines.length then s
  else if s.cursor.x = 0 ∧ s.cursor.y = 0 then s
  else if s.cursor.x > 0 then
    let chars := rowDeleteChar (lineAt s.lines s.cursor.y).chars (s.cursor.x - 1)
    { s with lines := s.lines.set s.cursor.y ⟨chars, updateRow chars⟩,
             cursor := ⟨s.cursor.x - 1, s.cursor.y⟩,
             dirty := true }
  else
    let newX := (lineAt s.lines (s.cursor.y - 1)).chars.length
    let merged := (lineAt s.lines (s.cursor.y - 1)).chars ++ (lineAt s.lines s.cursor.y).chars
    let s1 := { s with lines := s.lines.set (s.cursor.y - 1) ⟨merged, updateRow merged⟩,
                       cursor := ⟨newX, s.cursor.y⟩ }
    let s2 := deleteRow s1 s1.cursor.y
    { s2 with cursor := ⟨s2.cursor.x, s2.cursor.y - 1⟩, dirty := true }

/-- `moveCursor`: arrow-key cursor movement followed by the snap of the
cursor column to the end of the (possibly new) line. -/
def moveCursor (key : Nat) (s : EState) : EState :=
  let s :=
    if key = kArrowLeft then
      if s.cursor.x > 0 then { s with cursor := ⟨s.cursor.x - 1, s.cursor.y⟩ }
      else if s.cursor.y > 0 then
        { s with cursor := ⟨(lineAt s.lines (s.cursor.y - 1)).chars.length, s.cursor.y - 1⟩ }
      else s
    else if key = kArrowRight then
      if s.cursor.y < s.lines.length then
        if s.cursor.x < (lineAt s.lines s.cursor.y).chars.length then
          { s with cursor := ⟨s.cursor.x + 1, s.cursor.y⟩ }
        else if s.cursor.x = (lineAt s.lines s.cursor.y).chars.length then
          { s with cursor := ⟨0, s.cursor.y + 1⟩ }
        else s
      else s
    else if key = kArrowDown then
      if s.cursor.y < s.lines.length then { s with cursor := ⟨s.cursor.x, s.cursor.y + 1⟩ }
      else s
    else if key = kArrowUp then
      if s.cursor.y > 0 then { s with cursor := ⟨s.cursor.x, s.cursor.y - 1⟩ } else s
    else s
  let rowLen := if s.cursor.y < s.lines.length then (lineAt s.lines s.cursor.y).chars.length else 0
  if s.cursor.x > rowLen then { s with cursor := ⟨rowLen, s.cursor.y⟩ } else s

/-- `setCursor`. -/
def setCursor (p : Point) (s : EState) : EState :=
  { s with cursor := p }

/-- The loading loop shared by `openFile` and `openData`: reset the line
buffer, append one line per scanned row, and clear the dirty flag.  The
cursor is not touched.  (The `os.Open`/scanner plumbing and the file name
are external concerns; `content` is the list of scanned lines.) -/
def openFile (content : List (List Char)) (s : EState) : EState :=
  let s := { s with lines := [] }
  let s := content.foldl (fun st t => insertRow st st.lines.length t) s
  { s with dirty := false }

/-- One step of the `kill_line` action's loop would evaluate
`len(editor.lines[editor.cursor.y].chars)` in the loop guard; modelled with
fuel (each genuine iteration shortens the current line, so
`len(chars) + 1` steps suffice), and with `none` signalling the guard's
out-of-range line access (a Go runtime panic). -/
def killLineLoop : Nat → EState → Option EState
  | 0, s => some s
  | fuel + 1, s =>
    if s.cursor.y < s.lines.length then
      if s.cursor.x ≥ (lineAt s.lines s.cursor.y).chars.length then some s
      else killLineLoop fuel (deleteChar (moveCursor kArrowRight s))
    else none

/-- The `kill_line` entry of `actionDispatch` (readonly false). -/
def killLine (s : EState) : Option EState :=
  killLineLoop ((lineAt s.lines s.cursor.y).chars.length + 1) s

/-- The status message set by the first quit attempt on a dirty buffer. -/
def quitWarnMsg : String := "There are unsaved changes. Press ctrl-q to quit or ctrl-s to save."

/-- The `action == "quit"` case of `processKey`: on a dirty buffer whose
quit has not been confirmed, set the message and the confirm flag and keep
running (`false`); otherwise report exit (`true`). -/
def processQuit (s : EState) : Bool × EState :=
  if s.dirty = true ∧ s.quitComfirm = false then
    (false, { s with statusMsg := quitWarnMsg, quitComfirm := true })
  else (true, s)

/-- Whether `pat` occurs at the head of `s` (the head case of the prefix
scan behind `strings.Index`). -/
def matchesHere : List Char → List Char → Bool
  | _, [] => true
  | [], _ :: _ => false
  | a :: s, b :: p => a = b && matchesHere s p

/-- `strings.Index`: the first index at which `pat` occurs in `s` (`none`
for Go's `-1`). -/
def goIndex (s pat : List Char) : Option Nat :=
  if matchesHere s pat then some 0
  else
    match s with
    | [] => none
    | _ :: t => (goIndex t pat).map (fun n => n + 1)

/-- The `searchPoints` loop: repeatedly find the query in the remaining
suffix `s`, step past the matched text, and record the match column as
`len(str) - len(s) - len(substr)` with row `row - 1`.  With a non-empty
query (the only way `searchPoints` enters the loop) each iteration
strictly shortens `s`, so `fuel = len(s) + 1` makes the recursion
structural without ever being exhausted. -/
def spLoop (str pat : List Char) (row : Nat) : Nat → List Char → List Point → List Point
  | 0, _, points => points
  | fuel + 1, s, points =>
    match goIndex s pat with
    | none => points
    | some i =>
      let s2 := s.drop (i + pat.length)
      spLoop str pat row fuel s2 (points ++ [⟨str.length - s2.length - pat.length, row - 1⟩])

/-- `searchPoints row str substr`: all non-overlapping occurrences of
`substr` in `str`, as points with `y = row - 1`; empty query yields no
points. -/
def searchPoints (row : Nat) (str pat : List Char) : List Point :=
  if pat = [] then [] else spLoop str pat row (str.length + 1) str []

/-- Modelled from the spec's words: scan left to right, find each
occurrence of the (non-empty) query, record its absolute column, and
resume immediately past the matched text; `ofs` is the absolute offset of
the suffix `s` inside the line (same fuel discipline as `spLoop`). -/
def specMatches (pat : List Char) : Nat → List Char → Nat → List Nat
  | 0, _, _ => []
  | fuel + 1, s, ofs =>
    match goIndex s pat with
    | none => []
    | some i => (ofs + i) :: specMatches pat fuel (s.drop (i + pat.length)) (ofs + i + pat.length)

/-- The spec-side match list of a whole line: absolute columns of the
non-overlapping occurrences, scanning from offset 0. -/
def specSearch (pat str : List Char) : List Nat :=
  specMatches pat (str.length + 1) str 0

/-- The per-line collection step of `find`: for each line, in order,
append the line's search points (computed from its logical characters,
with `row+1` passed as the 1-based row). -/
def findPoints (lines : List Line) (query : List Char) : List Point :=
  lines.enum.foldl (fun acc rl => acc ++ searchPoints (rl.1 + 1) rl.2.chars query) []

/-- The inner loop of `paren`: scan `(index, char)` pairs (already in
backward order), updating the depth for every character — `right`
increments, `left` decrements — and returning the index at the first
character after which the depth is 0; otherwise the final depth. -/
def lineScan (left right : Char) : List (Nat × Char) → Int → Option Nat × Int
  | [], d => (none, d)
  | (i, c) :: rest, d =>
    let d2 := if c = right then d + 1 else if c = left then d - 1 else d
    if d2 = 0 then (some i, d2) else lineScan left right rest d2

/-- The outer loop of `paren`: scan line `y` backwards starting from index
`xTake - 1` (the cursor line is entered with `xTake = cursor.x`, every
earlier line with `xTake = len(chars)`), carrying the depth into earlier
lines; scanning an empty range is the source's empty-line skip. -/
def parenGo (left right : Char) (lines : List Line) (y xTake : Nat) (d : Int) : Option Point :=
  match lineScan left right (((lineAt lines y).chars.enum.take xTake).reverse) d with
  | (some i, _) => some ⟨i, y⟩
  | (none, d2) =>
    match y with
    | 0 => none
    | y' + 1 => parenGo left right lines y' (lineAt lines y').chars.length d2

/-- `paren`: backward bracket matching from the character just before the
cursor; `none` is the "no matching parenthesis found" error. -/
def paren (left right : Char) (s : EState) : Option Point :=
  parenGo left right s.lines s.cursor.y s.cursor.x 0

/-- One `rawReadKey` outcome: a byte, or a timed-out read with no data
(`errNoInput`; `io.EOF` is also folded into `errNoInput` by
`rawReadKey`). -/
inductive RawRead where
  | ok (b : Nat)
  | noInput
deriving Repr, DecidableEq

/-- `readKey` over a finite stream of read outcomes.  The result is
`some (key, isErr)` where `isErr` records whether the accompanying Go
error was non-nil (`errNoInput` propagated from a mid-sequence timeout);
`none` means the stream was exhausted while the top-level loop was still
retrying.  An empty tail behaves as a timed-out read (`rawReadKey`
blocks at most one timeout interval and then reports `errNoInput`). -/
def readKey : List RawRead → Option (Nat × Bool)
  | [] => none
  | .noInput :: rest => readKey rest
  | .ok key :: rest =>
    if key = 27 then
      match rest with
      | [] => some (27, false)
      | .noInput :: _ => some (27, false)
      | .ok esc0 :: rest1 =>
        match rest1 with
        | [] => some (27, true)
        | .noInput :: _ => some (27, true)
        | .ok esc1 :: rest2 =>
          if esc0 = 91 then
            if 48 ≤ esc1 ∧ esc1 ≤ 57 then
              match rest2 with
              | [] => some (27, true)
              | .noInput :: _ => some (27, true)
              | .ok esc2 :: rest3 =>
                if esc2 = 126 then
                  if esc1 = 53 then some (kPageUp, false)
                  else if esc1 = 54 then some (kPageDown, false)
                  else if esc1 = 51 then some (kDelete, false)
                  else readKey rest3
                else if esc2 = 59 then
                  match rest3 with
                  | [] => some (27, true)
                  | .noInput :: _ => some (27, true)
                  | .ok esc3 :: rest4 =>
                    match rest4 with
                    | [] => some (27, true)
                    | .noInput :: _ => some (27, true)
                    | .ok esc4 :: rest5 =>
                      if esc3 = 50 then
                        if esc4 = 65 then some (kArrowUp, false)
                        else if esc4 = 66 then some (kArrowDown, false)
                        else if esc4 = 68 then some (kArrowLeft, false)
                        else if esc4 = 67 then some (kArrowRight, false)
                        else readKey rest5
                      else readKey rest5
                else readKey rest3
            else
              if esc1 = 65 then some (kArrowUp, false)
              else if esc1 = 66 then some (kArrowDown, false)
              else if esc1 = 67 then some (kArrowRight, false)
              else if esc1 = 68 then some (kArrowLeft, false)
              else if esc1 = 72 then some (kHome, false)
              else if esc1 = 70 then some (kEnd, false)
              else readKey rest2
          else readKey rest2
    else if key = 195 then
      match rest with
      | [] => some (27, true)
      | .noInput :: _ => some (27, true)
      | .ok esc1 :: rest1 =>
        if esc1 = 165 then some (229, false)
        else if esc1 = 164 then some (228, false)
        else if esc1 = 182 then some (246, false)
        else if esc1 = 133 then some (197, false)
        else if esc1 = 132 then some (196, false)
        else if esc1 = 150 then some (214, false)
        else readKey rest1
    else some (key, false)

/-- A line whose render is correctly derived. -/
def mkLine (cs : List Char) : Line :=
  ⟨cs, updateRow cs⟩

/-- The freshly initialized editor state (empty buffer). -/
def emptyState : EState :=
  ⟨⟨0, 0⟩, [], false, false, ""⟩

/-- The render invariant: every line's render is derived from its chars by
`updateRow`. -/
def rendInv (lines : List Line) : Prop :=
  ∀ l ∈ lines, l.render = updateRow l.chars

theorem foldl_expand_length (l : List Char) :
    ∀ acc : List Char,
      (l.foldl (fun dest r => if r = '\t' then dest ++ List.replicate tabStop ' ' else dest ++ [r])
        acc).length
        = l.foldl (fun rx c => if c = '\t' then rx + tabStop else rx + 1) acc.length := by
  induction l with
  | nil => intro acc; rfl
  | cons c t ih =>
    intro acc
    simp only [List.foldl_cons]
    by_cases hc : c = '\t'
    · rw [if_pos hc, if_pos hc, ih]
      congr 1
      simp [List.length_append, List.length_replicate]
    · rw [if_neg hc, if_neg hc, ih]
      congr 1
      simp

theorem updateRow_length (l : List Char) :
    (updateRow l).length = l.foldl (fun rx c => if c = '\t' then rx + tabStop else rx + 1) 0 :=
  foldl_expand_length l []

/-- C3: for every logical column `x` within the line, `computeRx` equals
the length of `updateRow` applied to the first `x` characters, i.e. the
cursor display-column computation agrees exactly with the tab expansion
used to build the render sequence. -/
theorem computeRx_matches_updateRow (row : List Char) (x : Nat) (h : x ≤ row.length) :
    computeRx row x = (updateRow (row.take x)).length := by
  rw [updateRow_length]
  rfl

/-- Witness for `computeRx_matches_updateRow` at a concrete line. -/
theorem computeRx_matches_updateRow_witness :
    2 ≤ (['a', '\t'] : List Char).length ∧
      computeRx ['a', '\t'] 2 = (updateRow ((['a', '\t'] : List Char).take 2)).length :=
  ⟨by decide, computeRx_matches_updateRow ['a', '\t'] 2 (by decide)⟩

/-- C2 (amended): in the current revision each tab advances the display
column by exactly the tab width (a fixed advance) and every other
character by one; the next-tab-stop-boundary rounding of the claim is the
behaviour of the historical part_003 revision of `computeRx`, not of the
current one. -/
theorem computeRx_revisions_tab_advance :
    (∀ (row : List Char) (x : Nat), x ≤ row.length →
        computeRx row x = specDisplayColumnFixed row x) ∧
    (∀ (row : List Char) (x : Nat), x ≤ row.length →
        computeRx003 row x = specDisplayColumn row x) := by
  constructor
  · intro row x _
    rfl
  · intro row x _
    unfold computeRx003 specDisplayColumn
    have hfg :
        (fun rx c => if c = '\t' then rx + tabStop - 1 - rx % tabStop + 1 else rx + 1)
          = fun (rx : Nat) (c : Char) => if c = '\t' then rx + (tabStop - rx % tabStop) else rx + 1 := by
      funext rx c
      by_cases hc : c = '\t'
      · rw [if_pos hc, if_pos hc]
        have hm : rx % tabStop < tabStop := Nat.mod_lt _ (by decide)
        simp only [tabStop] at hm ⊢
        omega
      · rw [if_neg hc, if_neg hc]
    rw [hfg]

/-- C2 counterexample: on the line `"a\t"` at `x = 2` the current
`computeRx` yields 5 (fixed advance of 4 per tab) while rounding to the
next tab-stop boundary yields 4. -/
theorem computeRx_not_next_boundary :
    computeRx ['a', '\t'] 2 ≠ specDisplayColumn ['a', '\t'] 2 := by decide

/-- Witness for `computeRx_revisions_tab_advance` at a concrete line. -/
theorem computeRx_revisions_tab_advance_witness :
    2 ≤ (['a', '\t'] : List Char).length ∧
      computeRx ['a', '\t'] 2 = specDisplayColumnFixed ['a', '\t'] 2 ∧
      computeRx003 ['a', '\t'] 2 = specDisplayColumn ['a', '\t'] 2 :=
  ⟨by decide, computeRx_revisions_tab_advance.1 _ 2 (by decide),
    computeRx_revisions_tab_advance.2 _ 2 (by decide)⟩

theorem rendInv_set (lines : List Line) (y : Nat) (cs : List Char) (h : rendInv lines) :
    rendInv (lines.set y ⟨cs, updateRow cs⟩) := by
  intro l hl
  rcases List.mem_or_eq_of_mem_set hl with h1 | h1
  · exact h l h1
  · subst h1; rfl

theorem rendInv_insertRow (s : EState) (i : Nat) (str : List Char) (h : rendInv s.lines) :
    rendInv (insertRow s i str).lines := by
  by_cases hc : i > s.lines.length
  · simpa [insertRow, hc] using h
  · simp only [insertRow, if_neg hc]
    intro l hl
    rcases List.mem_append.1 hl with h1 | h1
    · exact h l (List.take_subset _ _ h1)
    · rcases List.mem_cons.1 h1 with h2 | h2
      · subst h2; rfl
      · exact h l (List.drop_subset _ _ h2)

theorem rendInv_deleteRow (s : EState) (i : Nat) (h : rendInv s.lines) :
    rendInv (deleteRow s i).lines := by
  by_cases hc : i ≥ s.lines.length
  · simpa [deleteRow, hc] using h
  · simp only [deleteRow, if_neg hc]
    intro l hl
    rcases List.mem_append.1 hl with h1 | h1
    · exact h l (List.take_subset _ _ h1)
    · exact h l (List.drop_subset _ _ h1)

theorem rendInv_insertChar (c : Char) (s : EState) (h : rendInv s.lines) :
    rendInv (insertChar c s).lines := by
  by_cases hy : s.cursor.y = s.lines.length
  · simp only [insertChar, if_pos hy]
    exact rendInv_set _ _ _ (rendInv_insertRow s _ [] h)
  · simp only [insertChar, if_neg hy]
    exact rendInv_set _ _ _ h

theorem rendInv_insertNewLine (s : EState) (h : rendInv s.lines) :
    rendInv (insertNewLine s).lines := by
  by_cases hx : s.cursor.x = 0
  · simp only [insertNewLine, if_pos hx]
    exact rendInv_insertRow s _ [] h
  · simp only [insertNewLine, if_neg hx]
    exact rendInv_insertRow _ _ _ (rendInv_set _ _ _ h)

theorem rendInv_deleteChar (s : EState) (h : rendInv s.lines) :
    rendInv (deleteChar s).lines := by
  by_cases h1 : s.cursor.y = s.lines.length
  · simpa [deleteChar, h1] using h
  · by_cases h2 : s.cursor.x = 0 ∧ s.cursor.y = 0
    · simpa [deleteChar, h1, h2] using h
    · by_cases h3 : s.cursor.x > 0
      · simp only [deleteChar, if_neg h1, if_neg h2, if_pos h3]
        exact rendInv_set _ _ _ h
      · simp only [deleteChar, if_neg h1, if_neg h2, if_neg h3]
        exact rendInv_deleteRow _ _ (rendInv_set _ _ _ h)

/-- C1 (amended): after each of the mutating operations every line's
render equals `updateRow` of its chars — every tab replaced by a fixed run
of `tabStop` (4) spaces — i.e. render is always re-derived by the same
expansion and never edited otherwise.  (The claim's "next multiple"
expansion is refuted by `render_not_next_multiple`.) -/
theorem mutators_preserve_rendInv (s : EState) (c : Char) (i : Nat) (str : List Char)
    (h : rendInv s.lines) :
    rendInv (insertChar c s).lines ∧ rendInv (insertNewLine s).lines ∧
      rendInv (deleteChar s).lines ∧ rendInv (insertRow s i str).lines ∧
      rendInv (deleteRow s i).lines :=
  ⟨rendInv_insertChar c s h, rendInv_insertNewLine s h, rendInv_deleteChar s h,
    rendInv_insertRow s i str h, rendInv_deleteRow s i h⟩

/-- C1 counterexample: typing `a` then TAB from the empty buffer yields
render `"a    "` (a fixed four-space tab), not the next-multiple
expansion `"a   "` asserted by the claim. -/
theorem render_not_next_multiple :
    (lineAt (insertChar '\t' (insertChar 'a' emptyState)).lines 0).render
      ≠ specTabExpand (lineAt (insertChar '\t' (insertChar 'a' emptyState)).lines 0).chars := by
  decide

/-- Witness for `mutators_preserve_rendInv` on the empty state. -/
theorem mutators_preserve_rendInv_witness :
    rendInv emptyState.lines ∧ rendInv (insertChar 'a' emptyState).lines :=
  ⟨by intro l hl; simp [emptyState] at hl,
    (mutators_preserve_rendInv emptyState 'a' 0 []
      (by intro l hl; simp [emptyState] at hl)).1⟩

theorem set_lineAt_self (lines : List Line) : ∀ y : Nat, y < lines.length →
    lines.set y (lineAt lines y) = lines := by
  induction lines with
  | nil => intro y h; simp at h
  | cons a t ih =>
    intro y h
    cases y with
    | zero => simp [lineAt]
    | succ y =>
      simp only [List.set_cons_succ, lineAt, List.getD_cons_succ]
      exact congrArg (List.cons a) (ih y (Nat.lt_of_succ_lt_succ h))

/-- C7 (amended): when the cursor column is out of range for the current
line, the row-level insert rejects the index, so the line (chars and
render both) and the rest of the document are unchanged — but `insertChar`
still advances the cursor column by one and still sets the dirty flag, so
it is not a complete no-op. -/
theorem insertChar_out_of_range (s : EState) (c : Char)
    (hy : s.cursor.y < s.lines.length)
    (hx : (lineAt s.lines s.cursor.y).chars.length < s.cursor.x)
    (hr : (lineAt s.lines s.cursor.y).render = updateRow (lineAt s.lines s.cursor.y).chars) :
    (insertChar c s).lines = s.lines ∧
      (insertChar c s).cursor = ⟨s.cursor.x + 1, s.cursor.y⟩ ∧
      (insertChar c s).dirty = true := by
  have hy2 : ¬ s.cursor.y = s.lines.length := Nat.ne_of_lt hy
  have hrow : rowInsertChar (lineAt s.lines s.cursor.y).chars s.cursor.x c
      = (lineAt s.lines s.cursor.y).chars := by
    unfold rowInsertChar
    rw [if_pos hx]
  simp only [insertChar, if_neg hy2, hrow]
  refine ⟨?_, by trivial, by trivial⟩
  rw [← hr]
  exact set_lineAt_self s.lines s.cursor.y hy

/-- C7 counterexample: with line `"ab"` and cursor column 5 (out of
range), `insertChar` advances the cursor and sets the dirty flag, so the
claimed silent no-op does not hold. -/
theorem insertChar_oob_not_noop :
    (insertChar 'z' ⟨⟨5, 0⟩, [mkLine ['a', 'b']], false, false, ""⟩).cursor
        ≠ (⟨⟨5, 0⟩, [mkLine ['a', 'b']], false, false, ""⟩ : EState).cursor ∧
      (insertChar 'z' ⟨⟨5, 0⟩, [mkLine ['a', 'b']], false, false, ""⟩).dirty
        ≠ (⟨⟨5, 0⟩, [mkLine ['a', 'b']], false, false, ""⟩ : EState).dirty := by
  decide

/-- Witness for `insertChar_out_of_range` at a concrete state. -/
theorem insertChar_out_of_range_witness :
    (insertChar 'z' (⟨⟨5, 0⟩, [mkLine ['a', 'b']], false, false, ""⟩ : EState)).lines
      = [mkLine ['a', 'b']] :=
  (insertChar_out_of_range ⟨⟨5, 0⟩, [mkLine ['a', 'b']], false, false, ""⟩ 'z'
    (by decide) (by decide) (by decide)).1

/-- C9: a quit on a dirty buffer with the confirm flag unset only sets the
flag and the status message and does not terminate the loop; a quit on a
clean buffer, or with the flag already set, reports exit. -/
theorem processQuit_two_stage (s : EState) :
    (s.dirty = true → s.quitComfirm = false →
        processQuit s = (false, { s with statusMsg := quitWarnMsg, quitComfirm := true })) ∧
      (s.dirty = false ∨ s.quitComfirm = true → processQuit s = (true, s)) := by
  constructor
  · intro h1 h2
    simp [processQuit, h1, h2]
  · intro h
    rcases h with h | h
    · simp [processQuit, h]
    · simp [processQuit, h]

/-- Witness for `processQuit_two_stage` at concrete states. -/
theorem processQuit_two_stage_witness :
    processQuit ⟨⟨0, 0⟩, [], true, false, ""⟩
        = (false, ⟨⟨0, 0⟩, [], true, true, quitWarnMsg⟩) ∧
      processQuit ⟨⟨0, 0⟩, [], false, false, ""⟩ = (true, ⟨⟨0, 0⟩, [], false, false, ""⟩) :=
  ⟨(processQuit_two_stage _).1 rfl rfl, (processQuit_two_stage _).2 (Or.inl rfl)⟩

/-- C4 (code bug): loading a file leaves the cursor untouched, so opening
a 1-line document from a state with the cursor on row 2 leaves
`cursor.y = 2 > 1 = len(lines)`, violating the cursor invariant the claim
asserts after the open-file operation (a later `insertChar` then indexes
out of range). -/
theorem openFile_breaks_cursor_invariant :
    (openFile [['x']]
        ⟨⟨0, 2⟩, [mkLine ['a'], mkLine ['b'], mkLine ['c']], false, false, ""⟩).cursor.y = 2 ∧
      (openFile [['x']]
        ⟨⟨0, 2⟩, [mkLine ['a'], mkLine ['b'], mkLine ['c']], false, false, ""⟩).lines.length = 1 ∧
      ¬ ((openFile [['x']]
            ⟨⟨0, 2⟩, [mkLine ['a'], mkLine ['b'], mkLine ['c']], false, false, ""⟩).cursor.y
          ≤ (openFile [['x']]
            ⟨⟨0, 2⟩, [mkLine ['a'], mkLine ['b'], mkLine ['c']], false, false, ""⟩).lines.length) := by
  decide

/-- C10 (code bug): on the virtual trailing line — here the empty
document, where `cursor.y = len(lines) = 0` — the `kill_line` loop guard
itself evaluates `editor.lines[editor.cursor.y]` out of range (modelled as
`none`, a Go runtime panic), instead of the claimed bounds-safe no-op. -/
theorem killLine_oob_on_virtual_line :
    emptyState.cursor.y = emptyState.lines.length ∧ killLine emptyState = none := by
  decide

/-- C6 (amended): a timeout before the first continuation byte yields a
bare ESC with a nil error, but a timeout at any later constituent read —
after at least one continuation byte has been consumed — yields ESC
together with the `errNoInput` error, an error result.  The conjuncts
enumerate every mid-sequence read the escape decoder performs: the second
read for any first byte, and (on the `[`-digit path, the only path with
further reads) the third read, and the fourth and fifth reads behind the
`;` modifier byte; a missing tail behaves as a timed-out read.  In every
case `readKey` returns instead of blocking. -/
theorem readKey_mid_sequence_timeout :
    (∀ rest, readKey (.ok 27 :: .noInput :: rest) = some (27, false)) ∧
      readKey [.ok 27] = some (27, false) ∧
      (∀ (b : Nat) (rest : List RawRead),
        readKey (.ok 27 :: .ok b :: .noInput :: rest) = some (27, true)) ∧
      (∀ b : Nat, readKey [.ok 27, .ok b] = some (27, true)) ∧
      (∀ d : Nat, 48 ≤ d → d ≤ 57 →
        (∀ rest, readKey (.ok 27 :: .ok 91 :: .ok d :: .noInput :: rest) = some (27, true)) ∧
          readKey [.ok 27, .ok 91, .ok d] = some (27, true) ∧
          (∀ rest,
            readKey (.ok 27 :: .ok 91 :: .ok d :: .ok 59 :: .noInput :: rest) = some (27, true)) ∧
          readKey [.ok 27, .ok 91, .ok d, .ok 59] = some (27, true) ∧
          (∀ (e3 : Nat) (rest : List RawRead),
            readKey (.ok 27 :: .ok 91 :: .ok d :: .ok 59 :: .ok e3 :: .noInput :: rest)
              = some (27, true)) ∧
          (∀ e3 : Nat,
            readKey [.ok 27, .ok 91, .ok d, .ok 59, .ok e3] = some (27, true))) := by
  refine ⟨?_, ?_, ?_, ?_, ?_⟩
  · intro rest
    rfl
  · rfl
  · intro b rest
    rfl
  · intro b
    rfl
  · intro d h1 h2
    refine ⟨?_, ?_, ?_, ?_, ?_, ?_⟩
    · intro rest
      simp [readKey, h1, h2]
    · simp [readKey, h1, h2]
    · intro rest
      simp [readKey, h1, h2]
    · simp [readKey, h1, h2]
    · intro e3 rest
      simp [readKey, h1, h2]
    · intro e3
      simp [readKey, h1, h2]

/-- Witness for `readKey_mid_sequence_timeout` (digit-path conjunct) at
the concrete digit `'5'` (53): a PageUp sequence cut off after the digit,
and one cut off after the `;` modifier pair's first byte. -/
theorem readKey_mid_sequence_timeout_witness :
    (48 ≤ 53 ∧ 53 ≤ 57) ∧
      readKey [.ok 27, .ok 91, .ok 53, .noInput] = some (27, true) ∧
      readKey [.ok 27, .ok 91, .ok 53, .ok 59, .ok 50, .noInput] = some (27, true) :=
  ⟨⟨by decide, by decide⟩,
    (readKey_mid_sequence_timeout.2.2.2.2 53 (by decide) (by decide)).1 [],
    (readKey_mid_sequence_timeout.2.2.2.2 53 (by decide) (by decide)).2.2.2.2.1 50 []⟩

/-- C6 counterexample: after `ESC [` a timed-out read makes `readKey`
return ESC paired with the `errNoInput` error — an error result (which
`processKey` propagates, terminating the session), contradicting the
claimed normal, non-error bare-ESC result. -/
theorem readKey_timeout_returns_error :
    readKey [.ok 27, .ok 91] = some (27, true) ∧
      readKey [.ok 27, .ok 91] ≠ some (27, false) := by
  decide

theorem matchesHere_length : ∀ s pat : List Char, matchesHere s pat = true →
    pat.length ≤ s.length := by
  intro s pat
  induction pat generalizing s with
  | nil => intro _; simp
  | cons b p ih =>
    intro h
    cases s with
    | nil => simp [matchesHere] at h
    | cons a s =>
      simp only [matchesHere, Bool.and_eq_true] at h
      simp only [List.length_cons]
      exact Nat.succ_le_succ (ih s h.2)

theorem goIndex_some_le : ∀ (s pat : List Char) (i : Nat), goIndex s pat = some i →
    i + pat.length ≤ s.length := by
  intro s
  induction s with
  | nil =>
    intro pat i h
    by_cases hm : matchesHere [] pat
    · simp only [goIndex, if_pos hm, Option.some.injEq] at h
      subst h
      simpa using matchesHere_length [] pat hm
    · simp [goIndex, hm] at h
  | cons a t ih =>
    intro pat i h
    by_cases hm : matchesHere (a :: t) pat
    · simp only [goIndex, if_pos hm, Option.some.injEq] at h
      subst h
      simpa using matchesHere_length (a :: t) pat hm
    · simp only [goIndex, if_neg hm] at h
      cases hgi : goIndex t pat with
      | none => rw [hgi] at h; simp at h
      | some n =>
        rw [hgi] at h
        simp only [Option.map_some', Option.some.injEq] at h
        subst h
        have := ih pat n hgi
        simp only [List.length_cons]
        omega

theorem spLoop_eq_specMatches (str pat : List Char) (row : Nat) :
    ∀ (fuel : Nat) (s : List Char) (acc : List Point), s.length ≤ str.length →
      spLoop str pat row fuel s acc
        = acc ++ (specMatches pat fuel s (str.length - s.length)).map
            (fun x => (⟨x, row - 1⟩ : Point)) := by
  intro fuel
  induction fuel with
  | zero => intro s acc _; simp [spLoop, specMatches]
  | succ fuel ih =>
    intro s acc hs
    simp only [spLoop, specMatches]
    cases hgi : goIndex s pat with
    | none => simp
    | some i =>
      simp only []
      have hle : i + pat.length ≤ s.length := goIndex_some_le s pat i hgi
      have hlen2 : (s.drop (i + pat.length)).length = s.length - (i + pat.length) :=
        List.length_drop _ _
      rw [ih (s.drop (i + pat.length)) _ (by rw [hlen2]; omega)]
      rw [hlen2]
      have e1 : str.length - (s.length - (i + pat.length)) - pat.length
          = str.length - s.length + i := by omega
      have e2 : str.length - (s.length - (i + pat.length))
          = str.length - s.length + i + pat.length := by omega
      rw [e1, e2]
      simp [List.append_assoc]

/-- C5: `searchPoints` records exactly the non-overlapping occurrences of
a non-empty query, scanning left to right and resuming immediately past
each match, as points in order with `y = row - 1`; in particular the
document `["foo bar foo", "foo"]` searched for `"foo"` yields the points
(0,0), (0,8), (1,0) in that order. -/
theorem searchPoints_finds_nonoverlapping :
    (∀ (row : Nat) (str pat : List Char), pat ≠ [] →
        searchPoints row str pat
          = (specSearch pat str).map (fun x => (⟨x, row - 1⟩ : Point))) ∧
      findPoints [mkLine "foo bar foo".toList, mkLine "foo".toList] "foo".toList
        = [⟨0, 0⟩, ⟨8, 0⟩, ⟨0, 1⟩] := by
  constructor
  · intro row str pat hpat
    unfold searchPoints specSearch
    rw [if_neg hpat]
    have h := spLoop_eq_specMatches str pat row (str.length + 1) str [] (le_refl _)
    simpa using h
  · decide

/-- Witness for `searchPoints_finds_nonoverlapping` at a concrete line. -/
theorem searchPoints_finds_nonoverlapping_witness :
    ("foo".toList ≠ ([] : List Char)) ∧
      searchPoints 1 "foo bar foo".toList "foo".toList
        = (specSearch "foo".toList "foo bar foo".toList).map (fun x => (⟨x, 1 - 1⟩ : Point)) :=
  ⟨by decide, searchPoints_finds_nonoverlapping.1 1 _ _ (by decide)⟩

theorem lineScan_found (left right : Char) :
    ∀ (ics : List (Nat × Char)) (d : Int) (i : Nat) (dep : Int),
      0 < d → lineScan left right ics d = (some i, dep) → (i, left) ∈ ics := by
  intro ics
  induction ics with
  | nil =>
    intro d i dep hd h
    simp [lineScan] at h
  | cons q rest ih =>
    intro d i dep hd h
    obtain ⟨j, c⟩ := q
    by_cases hcr : c = right
    · have hne : ¬ (d + 1 = 0) := by omega
      simp only [lineScan, if_pos hcr, if_neg hne] at h
      exact List.mem_cons_of_mem _ (ih (d + 1) i dep (by omega) h)
    · by_cases hcl : c = left
      · by_cases hz : d - 1 = 0
        · simp only [lineScan, if_neg hcr, if_pos hcl, if_pos hz, Prod.mk.injEq,
            Option.some.injEq] at h
          obtain ⟨rfl, -⟩ := h
          subst hcl
          exact List.mem_cons_self _ _
        · simp only [lineScan, if_neg hcr, if_pos hcl, if_neg hz] at h
          exact List.mem_cons_of_mem _ (ih (d - 1) i dep (by omega) h)
      · have hz : ¬ (d = 0) := by omega
        simp only [lineScan, if_neg hcr, if_neg hcl, if_neg hz] at h
        exact List.mem_cons_of_mem _ (ih d i dep hd h)

theorem lineScan_none_pos (left right : Char) :
    ∀ (ics : List (Nat × Char)) (d dep : Int),
      0 < d → lineScan left right ics d = (none, dep) → 0 < dep := by
  intro ics
  induction ics with
  | nil =>
    intro d dep hd h
    simp only [lineScan, Prod.mk.injEq] at h
    omega
  | cons q rest ih =>
    intro d dep hd h
    obtain ⟨j, c⟩ := q
    by_cases hcr : c = right
    · have hne : ¬ (d + 1 = 0) := by omega
      simp only [lineScan, if_pos hcr, if_neg hne] at h
      exact ih (d + 1) dep (by omega) h
    · by_cases hcl : c = left
      · by_cases hz : d - 1 = 0
        · simp only [lineScan, if_neg hcr, if_pos hcl, if_pos hz, Prod.mk.injEq] at h
          exact absurd h.1 (by simp)
        · simp only [lineScan, if_neg hcr, if_pos hcl, if_neg hz] at h
          exact ih (d - 1) dep (by omega) h
      · have hz : ¬ (d = 0) := by omega
        simp only [lineScan, if_neg hcr, if_neg hcl, if_neg hz] at h
        exact ih d dep hd h

theorem mem_scanRange_enum (chars : List Char) (xTake : Nat) (i : Nat) (c : Char)
    (h : (i, c) ∈ (chars.enum.take xTake).reverse) : chars[i]? = some c := by
  rw [List.mem_reverse] at h
  have h2 : (i, c) ∈ chars.enum := List.take_subset _ _ h
  exact List.mk_mem_enum_iff_getElem?.1 h2

theorem parenGo_found (left right : Char) (lines : List Line) :
    ∀ (y xTake : Nat) (d : Int) (p : Point),
      0 < d → parenGo left right lines y xTake d = some p →
      (lineAt lines p.y).chars[p.x]? = some left := by
  intro y
  induction y with
  | zero =>
    intro xTake d p hd h
    rw [parenGo.eq_def] at h
    rcases hres : lineScan left right (((lineAt lines 0).chars.enum.take xTake).reverse) d
      with ⟨found, dep⟩
    rw [hres] at h
    cases found with
    | some i =>
      simp only [Option.some.injEq] at h
      subst h
      exact mem_scanRange_enum _ _ _ _ (lineScan_found left right _ d i dep hd hres)
    | none => simp at h
  | succ y ih =>
    intro xTake d p hd h
    rw [parenGo.eq_def] at h
    rcases hres : lineScan left right (((lineAt lines (y + 1)).chars.enum.take xTake).reverse) d
      with ⟨found, dep⟩
    rw [hres] at h
    cases found with
    | some i =>
      simp only [Option.some.injEq] at h
      subst h
      exact mem_scanRange_enum _ _ _ _ (lineScan_found left right _ d i dep hd hres)
    | none =>
      have hdep : 0 < dep := lineScan_none_pos left right _ d dep hd hres
      exact ih _ dep p hdep h

/-- C8: bracket matching scans backward from the character just before the
cursor with the depth discipline of the claim: whenever the character just
before the cursor is the closing bracket, any successful match lands on
the opening bracket; and on the two claimed examples it returns column 0
of `"(a(b)c)"` and fails on `")"` alone. -/
theorem paren_matches_and_examples :
    paren '(' ')' ⟨⟨7, 0⟩, [mkLine "(a(b)c)".toList], false, false, ""⟩ = some ⟨0, 0⟩ ∧
      paren '(' ')' ⟨⟨1, 0⟩, [mkLine ")".toList], false, false, ""⟩ = none ∧
      ∀ (left right : Char) (s : EState) (p : Point),
        1 ≤ s.cursor.x →
        (lineAt s.lines s.cursor.y).chars[s.cursor.x - 1]? = some right →
        paren left right s = some p →
        (lineAt s.lines p.y).chars[p.x]? = some left := by
  refine ⟨by decide, by decide, ?_⟩
  intro left right s p hx hc hp
  have hdecomp : ((lineAt s.lines s.cursor.y).chars.enum.take s.cursor.x).reverse
      = (s.cursor.x - 1, right)
          :: ((lineAt s.lines s.cursor.y).chars.enum.take (s.cursor.x - 1)).reverse := by
    have hx1 : s.cursor.x = (s.cursor.x - 1) + 1 := by omega
    rw [hx1, List.take_succ]
    have he : (lineAt s.lines s.cursor.y).chars.enum[s.cursor.x - 1]?
        = some (s.cursor.x - 1, right) := by
      rw [List.getElem?_enum, hc]
      rfl
    rw [he]
    simp
  unfold paren at hp
  rw [parenGo.eq_def] at hp
  rw [hdecomp] at hp
  have hstep : lineScan left right
      ((s.cursor.x - 1, right)
        :: ((lineAt s.lines s.cursor.y).chars.enum.take (s.cursor.x - 1)).reverse) 0
      = lineScan left right
          (((lineAt s.lines s.cursor.y).chars.enum.take (s.cursor.x - 1)).reverse) 1 := by
    simp [lineScan]
  rw [hstep] at hp
  rcases hres : lineScan left right
      (((lineAt s.lines s.cursor.y).chars.enum.take (s.cursor.x - 1)).reverse) 1
    with ⟨found, dep⟩
  rw [hres] at hp
  cases found with
  | some i =>
    simp only [Option.some.injEq] at hp
    subst hp
    exact mem_scanRange_enum _ _ _ _ (lineScan_found left right _ 1 i dep (by omega) hres)
  | none =>
    have hdep : 0 < dep := lineScan_none_pos left right _ 1 dep (by omega) hres
    cases hy : s.cursor.y with
    | zero =>
      rw [hy] at hp
      simp at hp
    | succ y2 =>
      rw [hy] at hp
      exact parenGo_found left right s.lines y2 _ dep p hdep hp

/-- Witness for `paren_matches_and_examples` (third conjunct) at the first
example state. -/
theorem paren_matches_witness :
    1 ≤ (⟨⟨7, 0⟩, [mkLine "(a(b)c)".toList], false, false, ""⟩ : EState).cursor.x ∧
      (lineAt [mkLine "(a(b)c)".toList] 0).chars[(0 : Nat)]? = some '(' :=
  ⟨by decide,
    paren_matches_and_examples.2.2 '(' ')'
      ⟨⟨7, 0⟩, [mkLine "(a(b)c)".toList], false, false, ""⟩ ⟨0, 0⟩
      (by decide) (by decide) paren_matches_and_examples.1⟩

end Editor

